import Mathlib

/-!
Verification of the Ollama provider client (message translation, synchronous
send, and streaming read loop) against its specification.

The Go source is embedded shallowly: the pure translation `convertMessages`
is a Lean function over a model of the unified message type; the synchronous
`send` path and the streaming goroutine are modelled as functions of the
observable outcomes of their effects (HTTP status, response body, the
sequence of newline-delimited records read from the live body, and how the
body ends).
-/

namespace Ollama

/-- Wire Turn: the flattened role/content pair sent to and received from the
backend (`ollamaMessage` in the source). -/
structure OllamaMessage where
  role : String
  content : String
deriving DecidableEq

/-- Backend usage counters (`ollamaUsage` in the source); int64 fields are
modelled as `Int`. -/
structure OllamaUsage where
  promptTokens : Int
  completionTokens : Int
  totalTokens : Int
deriving DecidableEq

/-- One decoded Wire Response Fragment (`ollamaResponse` in the source).
Fields absent from the JSON decode to their zero values, so every field is
total here. -/
structure OllamaResponse where
  model : String
  createdAt : String
  message : OllamaMessage
  done : Bool
  error : String
  usage : OllamaUsage
deriving DecidableEq

/-- Modelled from the spec: normalized Token Usage `{input tokens, output
tokens}` (declared outside the sampled slice; shape fixed by its use in the
source). -/
structure TokenUsage where
  inputTokens : Int
  outputTokens : Int
deriving DecidableEq

/-- Modelled from the spec: the finish-reason taxonomy of the provider layer;
the source only ever produces the end-of-turn constant
(`message.FinishReasonEndTurn`). -/
inductive FinishReason
  | endTurn
  | maxTokens
  | toolUse
  | canceled
  | unknown
deriving DecidableEq

/-- Modelled from the spec: the normalized response value
(`ProviderResponse`, declared outside the sampled slice; shape fixed by its
use in the source). -/
structure ProviderResponse where
  content : String
  usage : TokenUsage
  finishReason : FinishReason
deriving DecidableEq

/-- Modelled from the spec: the Normalized Event tagged union
{content-delta, complete, error} (`ProviderEvent`, declared outside the
sampled slice; shape fixed by its use in the source). Error values are
modelled by their message strings. -/
inductive ProviderEvent
  | contentDelta (content : String)
  | complete (response : ProviderResponse)
  | error (msg : String)
deriving DecidableEq

/-- Modelled from the spec: a tool-call request (name + serialized input)
carried by an assistant turn. -/
structure ToolCall where
  name : String
  input : String
deriving DecidableEq

/-- Modelled from the spec: a tool-call result (call identifier + result
content) carried by a tool turn. -/
structure ToolResult where
  toolCallID : String
  content : String
deriving DecidableEq

/-- Modelled from the spec: the role tag of a Conversation Turn. Roles other
than system/user/assistant/tool are possible on the Go side (the role is a
string-typed value), captured by `other`. -/
inductive MessageRole
  | system
  | user
  | assistant
  | tool
  | other (raw : String)
deriving DecidableEq

/-- Modelled from the spec: one Conversation Turn of the unified history
(`message.Message`): role, text content, tool-call requests, tool-call
results. -/
structure Message where
  role : MessageRole
  content : String
  toolCalls : List ToolCall
  toolResults : List ToolResult
deriving DecidableEq

/-- The text synthesized for an assistant turn's tool-call requests
(the `toolCallsText` accumulation inside `convertMessages`). -/
def toolCallsText (calls : List ToolCall) : String :=
  "I need to use the following tools:\n" ++
    String.join (calls.map fun call =>
      "- Tool: " ++ call.name ++ "\n  Arguments: " ++ call.input ++ "\n")

/-- The Wire Turns emitted for one history turn — the body of the `switch`
inside `convertMessages`. Roles outside user/assistant/tool fall through the
switch and emit nothing. -/
def convertMsg (msg : Message) : List OllamaMessage :=
  match msg.role with
  | .user => [⟨"user", msg.content⟩]
  | .assistant =>
      (if msg.content ≠ "" then [⟨"assistant", msg.content⟩] else []) ++
        (if msg.toolCalls.length > 0 then
          [⟨"assistant", toolCallsText msg.toolCalls⟩] else [])
  | .tool =>
      msg.toolResults.map fun result =>
        ⟨"user", "Tool result for " ++ result.toolCallID ++ ": " ++ result.content⟩
  | .system => []
  | .other _ => []

/-- `convertMessages`: prepend the configured system message when non-empty,
then translate each history turn in order. -/
def convertMessages (systemMessage : String) (messages : List Message) :
    List OllamaMessage :=
  (if systemMessage ≠ "" then [(⟨"system", systemMessage⟩ : OllamaMessage)] else []) ++
    messages.flatMap convertMsg

/-- The response-processing tail of `send` once a 200-status body has been
read: `none` stands for a JSON unmarshal failure, `some` for the decoded
fragment. -/
def ollamaSendDecode (decoded : Option OllamaResponse) :
    Except String ProviderResponse :=
  match decoded with
  | none => Except.error "failed to unmarshal response"
  | some r =>
      if r.error ≠ "" then Except.error ("ollama API error: " ++ r.error)
      else Except.ok
        { content := r.message.content
          usage :=
            { inputTokens := r.usage.promptTokens
              outputTokens := r.usage.completionTokens }
          finishReason := FinishReason.endTurn }

/-- The observable outcome of `send` as a function of the HTTP status, the
raw body text, and the body's decode result: a non-200 status fails with the
raw body, otherwise processing continues on the decoded fragment. -/
def ollamaSend (status : Nat) (body : String)
    (decoded : Option OllamaResponse) : Except String ProviderResponse :=
  if status ≠ 200 then Except.error ("ollama API error: " ++ body)
  else ollamaSendDecode decoded

/-- One newline-delimited record read from the streaming body: a zero-length
record, a record that fails to decode as JSON, or a decoded fragment. -/
inductive StreamRec
  | blank
  | malformed (line : String)
  | frag (r : OllamaResponse)
deriving DecidableEq

/-- How the streaming body ends after the listed records: clean end-of-stream
(`io.EOF`) or a mid-stream read failure. -/
inductive StreamEnd
  | eof
  | readErr (e : String)
deriving DecidableEq

/-- The streaming read loop of `stream`, as a function from the remaining
records, the way the body ends, and the accumulated `fullContent` buffer, to
the list of events emitted from that point on (in emission order). -/
def streamLoop : List StreamRec → StreamEnd → String → List ProviderEvent
  | [], .eof, full =>
      [ProviderEvent.complete
        { content := full
          usage := { inputTokens := 0, outputTokens := 0 }
          finishReason := FinishReason.endTurn }]
  | [], .readErr e, _ => [ProviderEvent.error ("error reading stream: " ++ e)]
  | record :: rest, fin, full =>
      match record with
      | .blank => streamLoop rest fin full
      | .malformed line =>
          [ProviderEvent.error ("failed to unmarshal response: " ++ line)]
      | .frag r =>
          if r.error ≠ "" then
            [ProviderEvent.error ("ollama API error: " ++ r.error)]
          else
            (if r.message.content ≠ "" then
              [ProviderEvent.contentDelta r.message.content] else []) ++
              (let full' :=
                if r.message.content ≠ "" then full ++ r.message.content else full
              if r.done then
                [ProviderEvent.complete
                  { content := full'
                    usage :=
                      { inputTokens := r.usage.promptTokens
                        outputTokens := r.usage.completionTokens }
                    finishReason := FinishReason.endTurn }]
              else streamLoop rest fin full')

/-- The observable event sequence of one `stream` call as a function of the
HTTP status, the raw body text (used only on the non-200 path), the records
read from the live body, and how the body ends. -/
def ollamaStream (status : Nat) (body : String) (recs : List StreamRec)
    (fin : StreamEnd) : List ProviderEvent :=
  if status ≠ 200 then [ProviderEvent.error ("ollama API error: " ++ body)]
  else streamLoop recs fin ""

/-- The payloads of the content-delta events of an event list, in order. -/
def deltaPayloads : List ProviderEvent → List String
  | [] => []
  | ProviderEvent.contentDelta s :: rest => s :: deltaPayloads rest
  | _ :: rest => deltaPayloads rest

/-- Whether an event is terminal (complete or error). -/
def ProviderEvent.isTerminal : ProviderEvent → Bool
  | .complete _ => true
  | .error _ => true
  | .contentDelta _ => false

/-- Whether an event is a content-delta. -/
def ProviderEvent.isDelta : ProviderEvent → Bool
  | .contentDelta _ => true
  | _ => false

/-- The non-empty fragment contents of a record list, in backend-delivery
order: exactly the delta payloads the loop would emit if it consumed every
record. -/
def fragContents : List StreamRec → List String
  | [] => []
  | StreamRec.frag r :: rest =>
      if r.message.content ≠ "" then r.message.content :: fragContents rest
      else fragContents rest
  | _ :: rest => fragContents rest

/-- Concatenation of a list of strings (left to right). -/
def concatAll : List String → String
  | [] => ""
  | s :: rest => s ++ concatAll rest

/-- A record is benign when the loop neither errors nor terminates on it:
blank, or a decoded fragment with empty error string and done unset. -/
def StreamRec.benign : StreamRec → Bool
  | .blank => true
  | .malformed _ => false
  | .frag r => r.error == "" && r.done == false

lemma string_append_empty (s : String) : s ++ "" = s := by
  cases s
  show String.mk _ = String.mk _
  simp [String.append]

lemma string_empty_append (s : String) : "" ++ s = s := by
  cases s
  show String.mk _ = String.mk _
  simp [String.append]

lemma string_append_assoc (a b c : String) : a ++ b ++ c = a ++ (b ++ c) := by
  cases a
  cases b
  cases c
  show String.mk _ = String.mk _
  simp [String.append]

@[simp] lemma streamLoop_nil_eof (acc : String) :
    streamLoop [] .eof acc =
      [ProviderEvent.complete ⟨acc, ⟨0, 0⟩, .endTurn⟩] := rfl

@[simp] lemma streamLoop_nil_readErr (e : String) (acc : String) :
    streamLoop [] (.readErr e) acc =
      [ProviderEvent.error ("error reading stream: " ++ e)] := rfl

@[simp] lemma streamLoop_blank_cons (rest : List StreamRec) (fin : StreamEnd)
    (acc : String) :
    streamLoop (.blank :: rest) fin acc = streamLoop rest fin acc := rfl

@[simp] lemma streamLoop_malformed_cons (line : String) (rest : List StreamRec)
    (fin : StreamEnd) (acc : String) :
    streamLoop (.malformed line :: rest) fin acc =
      [ProviderEvent.error ("failed to unmarshal response: " ++ line)] := rfl

lemma streamLoop_frag_error (fr : OllamaResponse) (rest : List StreamRec)
    (fin : StreamEnd) (acc : String) (he : fr.error ≠ "") :
    streamLoop (.frag fr :: rest) fin acc =
      [ProviderEvent.error ("ollama API error: " ++ fr.error)] := by
  simp [streamLoop, he]

lemma streamLoop_frag_done (fr : OllamaResponse) (rest : List StreamRec)
    (fin : StreamEnd) (acc : String) (he : fr.error = "") (hd : fr.done = true) :
    streamLoop (.frag fr :: rest) fin acc =
      (if fr.message.content ≠ "" then
        [ProviderEvent.contentDelta fr.message.content] else []) ++
        [ProviderEvent.complete
          ⟨(if fr.message.content ≠ "" then acc ++ fr.message.content else acc),
            ⟨fr.usage.promptTokens, fr.usage.completionTokens⟩, .endTurn⟩] := by
  simp [streamLoop, he, hd]

lemma streamLoop_frag_cont (fr : OllamaResponse) (rest : List StreamRec)
    (fin : StreamEnd) (acc : String) (he : fr.error = "") (hd : fr.done = false) :
    streamLoop (.frag fr :: rest) fin acc =
      (if fr.message.content ≠ "" then
        [ProviderEvent.contentDelta fr.message.content] else []) ++
        streamLoop rest fin
          (if fr.message.content ≠ "" then acc ++ fr.message.content else acc) := by
  simp [streamLoop, he, hd]

/-- Invariant behind the delta/complete agreement: any complete event emitted
by the loop carries the starting buffer followed by the concatenation of all
delta payloads the loop emits. -/
lemma streamLoop_complete_content (recs : List StreamRec) (fin : StreamEnd) :
    ∀ (acc : String) (r : ProviderResponse),
      ProviderEvent.complete r ∈ streamLoop recs fin acc →
      r.content = acc ++ concatAll (deltaPayloads (streamLoop recs fin acc)) := by
  induction recs with
  | nil =>
    intro acc r h
    cases fin with
    | eof =>
      simp only [streamLoop_nil_eof, List.mem_singleton,
        ProviderEvent.complete.injEq] at h
      subst h
      simp [deltaPayloads, concatAll, string_append_empty]
    | readErr e => simp [streamLoop_nil_readErr] at h
  | cons record rest ih =>
    intro acc r h
    cases record with
    | blank =>
      rw [streamLoop_blank_cons] at h ⊢
      exact ih acc r h
    | malformed line => simp [streamLoop_malformed_cons] at h
    | frag fr =>
      by_cases he : fr.error = ""
      · by_cases hd : fr.done
        · rw [streamLoop_frag_done fr rest fin acc he hd] at h ⊢
          by_cases hc : fr.message.content = ""
          · simp [hc] at h
            subst h
            simp [hc, deltaPayloads, concatAll, string_append_empty]
          · simp [hc] at h
            subst h
            simp [hc, deltaPayloads, concatAll, string_append_empty]
        · rw [Bool.not_eq_true] at hd
          rw [streamLoop_frag_cont fr rest fin acc he hd] at h ⊢
          by_cases hc : fr.message.content = ""
          · simp only [hc, ne_eq, not_true_eq_false, ite_false,
              List.nil_append] at h ⊢
            exact ih acc r h
          · simp only [hc, ne_eq, not_false_eq_true, ite_true,
              List.cons_append, List.nil_append] at h ⊢
            simp only [List.mem_cons, reduceCtorEq, false_or] at h
            have hrec := ih (acc ++ fr.message.content) r h
            simp only [deltaPayloads, concatAll]
            rw [hrec, string_append_assoc]
      · rw [streamLoop_frag_error fr rest fin acc he] at h
        simp at h

/-- The loop always emits zero or more content-delta events followed by
exactly one terminal event. -/
lemma streamLoop_shape (recs : List StreamRec) (fin : StreamEnd) :
    ∀ acc : String, ∃ pre t, streamLoop recs fin acc = pre ++ [t] ∧
      t.isTerminal = true ∧ ∀ e ∈ pre, e.isDelta = true := by
  induction recs with
  | nil =>
    intro acc
    cases fin with
    | eof =>
      exact ⟨[], ProviderEvent.complete ⟨acc, ⟨0, 0⟩, .endTurn⟩, rfl, rfl, by simp⟩
    | readErr e =>
      exact ⟨[], ProviderEvent.error ("error reading stream: " ++ e), rfl, rfl,
        by simp⟩
  | cons record rest ih =>
    intro acc
    cases record with
    | blank => simpa using ih acc
    | malformed line =>
      exact ⟨[], ProviderEvent.error ("failed to unmarshal response: " ++ line),
        rfl, rfl, by simp⟩
    | frag fr =>
      by_cases he : fr.error = ""
      · by_cases hd : fr.done
        · by_cases hc : fr.message.content = ""
          · refine ⟨[], ProviderEvent.complete
              ⟨acc, ⟨fr.usage.promptTokens, fr.usage.completionTokens⟩, .endTurn⟩,
              ?_, rfl, by simp⟩
            rw [streamLoop_frag_done fr rest fin acc he hd]
            simp [hc]
          · refine ⟨[ProviderEvent.contentDelta fr.message.content],
              ProviderEvent.complete ⟨acc ++ fr.message.content,
                ⟨fr.usage.promptTokens, fr.usage.completionTokens⟩, .endTurn⟩,
              ?_, rfl, ?_⟩
            · rw [streamLoop_frag_done fr rest fin acc he hd]
              simp [hc]
            · intro e hme
              simp only [List.mem_singleton] at hme
              subst hme
              rfl
        · rw [Bool.not_eq_true] at hd
          by_cases hc : fr.message.content = ""
          · obtain ⟨pre, t, h1, h2, h3⟩ := ih acc
            refine ⟨pre, t, ?_, h2, h3⟩
            rw [streamLoop_frag_cont fr rest fin acc he hd]
            simp [hc, h1]
          · obtain ⟨pre, t, h1, h2, h3⟩ := ih (acc ++ fr.message.content)
            refine ⟨ProviderEvent.contentDelta fr.message.content :: pre, t,
              ?_, h2, ?_⟩
            · rw [streamLoop_frag_cont fr rest fin acc he hd]
              simp [hc, h1]
            · intro e hme
              rcases List.mem_cons.mp hme with hme | hme
              · subst hme
                rfl
              · exact h3 e hme
      · exact ⟨[], ProviderEvent.error ("ollama API error: " ++ fr.error),
          streamLoop_frag_error fr rest fin acc he, rfl, by simp⟩

/-- The delta payloads the loop emits are an initial segment of the non-empty
fragment contents of the record list, in backend-delivery order. -/
lemma streamLoop_deltas_prefix (recs : List StreamRec) (fin : StreamEnd) :
    ∀ acc : String, ∃ rest',
      fragContents recs = deltaPayloads (streamLoop recs fin acc) ++ rest' := by
  induction recs with
  | nil =>
    intro acc
    cases fin with
    | eof => exact ⟨[], by simp [fragContents, deltaPayloads]⟩
    | readErr e => exact ⟨[], by simp [fragContents, deltaPayloads]⟩
  | cons record rest ih =>
    intro acc
    cases record with
    | blank => simpa [fragContents] using ih acc
    | malformed line =>
      exact ⟨fragContents rest, by simp [fragContents, deltaPayloads]⟩
    | frag fr =>
      by_cases he : fr.error = ""
      · by_cases hd : fr.done
        · by_cases hc : fr.message.content = ""
          · refine ⟨fragContents rest, ?_⟩
            rw [streamLoop_frag_done fr rest fin acc he hd]
            simp [hc, fragContents, deltaPayloads]
          · refine ⟨fragContents rest, ?_⟩
            rw [streamLoop_frag_done fr rest fin acc he hd]
            simp [hc, fragContents, deltaPayloads]
        · rw [Bool.not_eq_true] at hd
          by_cases hc : fr.message.content = ""
          · obtain ⟨rest', h1⟩ := ih acc
            refine ⟨rest', ?_⟩
            rw [streamLoop_frag_cont fr rest fin acc he hd]
            simpa [hc, fragContents] using h1
          · obtain ⟨rest', h1⟩ := ih (acc ++ fr.message.content)
            refine ⟨rest', ?_⟩
            rw [streamLoop_frag_cont fr rest fin acc he hd]
            simp only [hc, ne_eq, not_false_eq_true, ite_true, List.cons_append,
              List.nil_append, deltaPayloads, fragContents]
            simpa using h1
      · refine ⟨fragContents (.frag fr :: rest), ?_⟩
        rw [streamLoop_frag_error fr rest fin acc he]
        simp [deltaPayloads]

/-- When every record is benign and the body ends cleanly, the loop emits one
delta per non-empty fragment content and a synthetic complete event carrying
the accumulated content and zero-valued usage. -/
lemma streamLoop_benign_eof (recs : List StreamRec) :
    ∀ acc : String, (∀ r ∈ recs, r.benign = true) →
      streamLoop recs .eof acc =
        (fragContents recs).map ProviderEvent.contentDelta ++
          [ProviderEvent.complete
            ⟨acc ++ concatAll (fragContents recs), ⟨0, 0⟩, .endTurn⟩] := by
  induction recs with
  | nil =>
    intro acc h
    simp [fragContents, concatAll, string_append_empty]
  | cons record rest ih =>
    intro acc h
    have hrec := h record (List.mem_cons_self _ _)
    have hrest : ∀ r ∈ rest, r.benign = true :=
      fun r hr => h r (List.mem_cons_of_mem _ hr)
    cases record with
    | blank => simpa [fragContents] using ih acc hrest
    | malformed line => simp [StreamRec.benign] at hrec
    | frag fr =>
      simp only [StreamRec.benign, Bool.and_eq_true, beq_iff_eq] at hrec
      obtain ⟨he, hd⟩ := hrec
      rw [streamLoop_frag_cont fr rest .eof acc he hd]
      by_cases hc : fr.message.content = ""
      · simp only [hc, ne_eq, not_true_eq_false, ite_false, List.nil_append]
        simp only [fragContents, hc, ne_eq, not_true_eq_false, ite_false]
        exact ih acc hrest
      · simp only [hc, ne_eq, not_false_eq_true, ite_true, List.cons_append,
          List.nil_append]
        rw [ih (acc ++ fr.message.content) hrest]
        simp only [fragContents, hc, ne_eq, not_false_eq_true, ite_true,
          List.map_cons, concatAll, List.cons_append]
        simp [string_append_assoc]

/-- C1: in streaming mode, the Content of the ProviderResponse carried by
any complete event the call emits equals the concatenation, in emission
order, of the payloads of all content-delta events emitted by the call. -/
theorem stream_complete_content_eq_delta_concat (body : String)
    (recs : List StreamRec) (fin : StreamEnd) (r : ProviderResponse)
    (h : ProviderEvent.complete r ∈ ollamaStream 200 body recs fin) :
    r.content = concatAll (deltaPayloads (ollamaStream 200 body recs fin)) := by
  have h200 : ollamaStream 200 body recs fin = streamLoop recs fin "" := by
    simp [ollamaStream]
  rw [h200] at h ⊢
  have hinv := streamLoop_complete_content recs fin "" r h
  rwa [string_empty_append] at hinv

theorem stream_complete_content_eq_delta_concat_witness :
    (ProviderEvent.complete ⟨"ab", ⟨5, 7⟩, .endTurn⟩ ∈
      ollamaStream 200 ""
        [StreamRec.frag ⟨"m", "t", ⟨"assistant", "a"⟩, false, "", ⟨0, 0, 0⟩⟩,
         StreamRec.frag ⟨"m", "t", ⟨"assistant", "b"⟩, true, "", ⟨5, 7, 12⟩⟩]
        .eof) ∧
    (ProviderResponse.mk "ab" ⟨5, 7⟩ .endTurn).content =
      concatAll (deltaPayloads (ollamaStream 200 ""
        [StreamRec.frag ⟨"m", "t", ⟨"assistant", "a"⟩, false, "", ⟨0, 0, 0⟩⟩,
         StreamRec.frag ⟨"m", "t", ⟨"assistant", "b"⟩, true, "", ⟨5, 7, 12⟩⟩]
        .eof)) :=
  ⟨by decide,
   stream_complete_content_eq_delta_concat ""
     [StreamRec.frag ⟨"m", "t", ⟨"assistant", "a"⟩, false, "", ⟨0, 0, 0⟩⟩,
      StreamRec.frag ⟨"m", "t", ⟨"assistant", "b"⟩, true, "", ⟨5, 7, 12⟩⟩]
     .eof ⟨"ab", ⟨5, 7⟩, .endTurn⟩ (by decide)⟩

/-- C2: every stream call emits zero or more content-delta events followed by
exactly one terminal event (complete or error); no event follows the
terminal event, and the delta payloads are an initial segment of the
non-empty fragment contents in backend-delivery order. -/
theorem stream_single_terminal_last (status : Nat) (body : String)
    (recs : List StreamRec) (fin : StreamEnd) :
    (∃ pre t, ollamaStream status body recs fin = pre ++ [t] ∧
        t.isTerminal = true ∧ ∀ e ∈ pre, e.isDelta = true) ∧
      (ollamaStream status body recs fin).countP
        (fun e => e.isTerminal) = 1 ∧
      ∃ rest', fragContents recs =
        deltaPayloads (ollamaStream status body recs fin) ++ rest' := by
  by_cases hs : status = 200
  · subst hs
    have h200 : ollamaStream 200 body recs fin = streamLoop recs fin "" := by
      simp [ollamaStream]
    rw [h200]
    obtain ⟨pre, t, h1, h2, h3⟩ := streamLoop_shape recs fin ""
    refine ⟨⟨pre, t, h1, h2, h3⟩, ?_, streamLoop_deltas_prefix recs fin ""⟩
    rw [h1, List.countP_append]
    have hp : pre.countP (fun e => e.isTerminal) = 0 := by
      rw [List.countP_eq_zero]
      intro e he
      have hde := h3 e he
      cases e <;> simp_all [ProviderEvent.isDelta, ProviderEvent.isTerminal]
    simp [hp, List.countP_cons, h2]
  · have hne : ollamaStream status body recs fin =
        [ProviderEvent.error ("ollama API error: " ++ body)] := by
      simp [ollamaStream, hs]
    rw [hne]
    exact ⟨⟨[], ProviderEvent.error ("ollama API error: " ++ body), rfl, rfl,
        by simp⟩,
      by simp [List.countP_cons, ProviderEvent.isTerminal],
      ⟨fragContents recs, by simp [deltaPayloads]⟩⟩

/-- C3: if every record the body delivers is benign (no error string, no
done flag) and the body then reaches end-of-stream, the call emits its
deltas and then a complete event carrying the accumulated content — not an
error event. -/
theorem stream_eof_without_done_completes (body : String)
    (recs : List StreamRec) (h : ∀ r ∈ recs, r.benign = true) :
    ollamaStream 200 body recs .eof =
      (fragContents recs).map ProviderEvent.contentDelta ++
        [ProviderEvent.complete
          ⟨concatAll (fragContents recs), ⟨0, 0⟩, .endTurn⟩] := by
  have h200 : ollamaStream 200 body recs .eof = streamLoop recs .eof "" := by
    simp [ollamaStream]
  rw [h200, streamLoop_benign_eof recs "" h, string_empty_append]

theorem stream_eof_without_done_completes_witness :
    ollamaStream 200 ""
        [StreamRec.frag ⟨"m", "t", ⟨"assistant", "hi"⟩, false, "", ⟨0, 0, 0⟩⟩]
        .eof =
      (fragContents
          [StreamRec.frag ⟨"m", "t", ⟨"assistant", "hi"⟩, false, "", ⟨0, 0, 0⟩⟩]).map
          ProviderEvent.contentDelta ++
        [ProviderEvent.complete
          ⟨concatAll (fragContents
            [StreamRec.frag ⟨"m", "t", ⟨"assistant", "hi"⟩, false, "", ⟨0, 0, 0⟩⟩]),
            ⟨0, 0⟩, .endTurn⟩] :=
  stream_eof_without_done_completes ""
    [StreamRec.frag ⟨"m", "t", ⟨"assistant", "hi"⟩, false, "", ⟨0, 0, 0⟩⟩]
    (by decide)

/-- C4: a zero-length record is skipped: at the head of the remaining body,
and at any position the loop reaches, it produces no event, leaves the
accumulated content unchanged, and reading continues with the next
record. -/
theorem stream_blank_record_skipped (recs : List StreamRec) (fin : StreamEnd)
    (acc : String) :
    (streamLoop (.blank :: recs) fin acc = streamLoop recs fin acc) ∧
      ∀ pre : List StreamRec,
        streamLoop (pre ++ .blank :: recs) fin acc =
          streamLoop (pre ++ recs) fin acc := by
  refine ⟨rfl, ?_⟩
  intro pre
  induction pre generalizing acc with
  | nil => rfl
  | cons record pre ih =>
    cases record with
    | blank =>
      rw [List.cons_append, List.cons_append, streamLoop_blank_cons,
        streamLoop_blank_cons]
      exact ih acc
    | malformed line => simp
    | frag fr =>
      by_cases he : fr.error = ""
      · by_cases hd : fr.done
        · rw [List.cons_append, List.cons_append,
            streamLoop_frag_done fr _ fin acc he hd,
            streamLoop_frag_done fr _ fin acc he hd]
        · rw [Bool.not_eq_true] at hd
          rw [List.cons_append, List.cons_append,
            streamLoop_frag_cont fr _ fin acc he hd,
            streamLoop_frag_cont fr _ fin acc he hd, ih]
      · rw [List.cons_append, List.cons_append,
          streamLoop_frag_error fr _ fin acc he,
          streamLoop_frag_error fr _ fin acc he]

/-- C5 counterexample: HTTP status 204 is a 2xx success status, yet both the
synchronous path and the streaming path take the failure branch reserved for
non-success statuses — the source compares the status against 200 exactly,
not against the 2xx range. -/
theorem send_status_204_triggers_failure_branch :
    (200 ≤ 204 ∧ 204 < 300) ∧
    ollamaSend 204 "raw body"
        (some ⟨"m", "t", ⟨"assistant", "hello"⟩, true, "", ⟨1, 2, 3⟩⟩) =
      Except.error ("ollama API error: " ++ "raw body") ∧
    ollamaStream 204 "raw body" [] .eof =
      [ProviderEvent.error ("ollama API error: " ++ "raw body")] :=
  ⟨by decide, rfl, rfl⟩

/-- C5 amended: for every HTTP response whose status is not exactly 200, the
call fails and the raw body text is surfaced verbatim — send returns an
error carrying the body, and stream emits exactly one error event carrying
the body with no content-delta events; a 200 status does not trigger this
branch and processing continues on the decoded data. -/
theorem send_stream_non200_fails_with_body (status : Nat) (body : String)
    (decoded : Option OllamaResponse) (recs : List StreamRec)
    (fin : StreamEnd) :
    (status ≠ 200 →
      ollamaSend status body decoded =
          Except.error ("ollama API error: " ++ body) ∧
        ollamaStream status body recs fin =
          [ProviderEvent.error ("ollama API error: " ++ body)]) ∧
    (ollamaSend 200 body decoded = ollamaSendDecode decoded ∧
      ollamaStream 200 body recs fin = streamLoop recs fin "") := by
  constructor
  · intro hs
    exact ⟨by simp [ollamaSend, hs], by simp [ollamaStream, hs]⟩
  · exact ⟨by simp [ollamaSend], by simp [ollamaStream]⟩

theorem send_stream_non200_fails_with_body_witness :
    ollamaSend 500 "model not found" none =
        Except.error ("ollama API error: " ++ "model not found") ∧
      ollamaStream 500 "model not found" [] .eof =
        [ProviderEvent.error ("ollama API error: " ++ "model not found")] :=
  (send_stream_non200_fails_with_body 500 "model not found" none [] .eof).1
    (by decide)

/-- C6: on a 200 response, a decoded fragment with a non-empty error string
makes send fail with that string and never succeed; with an empty error
string send succeeds with the fragment's message content, usage mapped from
prompt/completion tokens, and the end-of-turn finish reason. -/
theorem send_fragment_error_vs_success (body : String) (fr : OllamaResponse) :
    (fr.error ≠ "" →
      ollamaSend 200 body (some fr) =
        Except.error ("ollama API error: " ++ fr.error)) ∧
    (fr.error = "" →
      ollamaSend 200 body (some fr) =
        Except.ok ⟨fr.message.content,
          ⟨fr.usage.promptTokens, fr.usage.completionTokens⟩, .endTurn⟩) := by
  constructor
  · intro he
    simp [ollamaSend, ollamaSendDecode, he]
  · intro he
    simp [ollamaSend, ollamaSendDecode, he]

theorem send_fragment_error_vs_success_witness :
    ollamaSend 200 "" (some ⟨"m", "t", ⟨"assistant", ""⟩, true, "boom", ⟨0, 0, 0⟩⟩) =
        Except.error ("ollama API error: " ++ "boom") ∧
      ollamaSend 200 ""
          (some ⟨"m", "t", ⟨"assistant", "hello"⟩, true, "", ⟨3, 1, 4⟩⟩) =
        Except.ok ⟨"hello", ⟨3, 1⟩, .endTurn⟩ :=
  ⟨(send_fragment_error_vs_success ""
      ⟨"m", "t", ⟨"assistant", ""⟩, true, "boom", ⟨0, 0, 0⟩⟩).1 (by decide),
   (send_fragment_error_vs_success ""
      ⟨"m", "t", ⟨"assistant", "hello"⟩, true, "", ⟨3, 1, 4⟩⟩).2 rfl⟩

/-- C7: a non-empty configured system message is always the first Wire Turn
produced, regardless of the history's contents; an empty one prepends no
such turn. -/
theorem convertMessages_system_first (sys : String) (msgs : List Message) :
    (sys ≠ "" → convertMessages sys msgs =
      ⟨"system", sys⟩ :: msgs.flatMap convertMsg) ∧
    (sys = "" → convertMessages sys msgs = msgs.flatMap convertMsg) := by
  constructor
  · intro hs
    simp [convertMessages, hs]
  · intro hs
    simp [convertMessages, hs]

theorem convertMessages_system_first_witness :
    convertMessages "be brief" [⟨MessageRole.user, "hi", [], []⟩] =
        ⟨"system", "be brief"⟩ ::
          ([⟨MessageRole.user, "hi", [], []⟩] : List Message).flatMap convertMsg ∧
      convertMessages "" [⟨MessageRole.user, "hi", [], []⟩] =
        ([⟨MessageRole.user, "hi", [], []⟩] : List Message).flatMap convertMsg :=
  ⟨(convertMessages_system_first "be brief" [⟨MessageRole.user, "hi", [], []⟩]).1
      (by decide),
   (convertMessages_system_first "" [⟨MessageRole.user, "hi", [], []⟩]).2 rfl⟩

/-- C8: an assistant turn with empty text content and at least one tool-call
request produces exactly one Wire Turn: the single synthesized assistant
turn enumerating each requested tool's name and serialized input. -/
theorem convertMsg_empty_assistant_with_tool_calls (msg : Message)
    (hrole : msg.role = .assistant) (hc : msg.content = "")
    (ht : msg.toolCalls ≠ []) :
    convertMsg msg = [⟨"assistant", toolCallsText msg.toolCalls⟩] := by
  have hlen : msg.toolCalls.length > 0 := List.length_pos.mpr ht
  unfold convertMsg
  rw [hrole]
  simp [hc, hlen]

theorem convertMsg_empty_assistant_with_tool_calls_witness :
    convertMsg ⟨MessageRole.assistant, "", [⟨"search", "q=1"⟩], []⟩ =
      [⟨"assistant", toolCallsText [⟨"search", "q=1"⟩]⟩] :=
  convertMsg_empty_assistant_with_tool_calls
    ⟨MessageRole.assistant, "", [⟨"search", "q=1"⟩], []⟩ rfl rfl (by decide)

/-- C9: when the body ends cleanly without any done fragment, the synthesized
complete event carries zero-valued usage counters, whereas the complete
event for a done fragment carries that fragment's usage counters. -/
theorem stream_synthetic_complete_zero_usage (body : String) :
    (∀ recs, (∀ r ∈ recs, StreamRec.benign r = true) →
      (ollamaStream 200 body recs .eof).getLast? =
        some (ProviderEvent.complete
          ⟨concatAll (fragContents recs), ⟨0, 0⟩, .endTurn⟩)) ∧
    (∀ (fr : OllamaResponse) (fin : StreamEnd), fr.error = "" → fr.done = true →
      (ollamaStream 200 body [.frag fr] fin).getLast? =
        some (ProviderEvent.complete
          ⟨fr.message.content,
            ⟨fr.usage.promptTokens, fr.usage.completionTokens⟩, .endTurn⟩)) := by
  constructor
  · intro recs h
    have h200 : ollamaStream 200 body recs .eof = streamLoop recs .eof "" := by
      simp [ollamaStream]
    rw [h200, streamLoop_benign_eof recs "" h, string_empty_append]
    simp [List.getLast?_concat]
  · intro fr fin he hd
    have h200 : ollamaStream 200 body [.frag fr] fin =
        streamLoop [.frag fr] fin "" := by
      simp [ollamaStream]
    rw [h200, streamLoop_frag_done fr [] fin "" he hd]
    by_cases hc : fr.message.content = ""
    · simp [hc]
    · simp [hc, string_empty_append, List.getLast?_concat]

theorem stream_synthetic_complete_zero_usage_witness :
    (ollamaStream 200 ""
        [StreamRec.frag ⟨"m", "t", ⟨"assistant", "x"⟩, false, "", ⟨9, 9, 18⟩⟩]
        .eof).getLast? =
      some (ProviderEvent.complete
        ⟨concatAll (fragContents
          [StreamRec.frag ⟨"m", "t", ⟨"assistant", "x"⟩, false, "", ⟨9, 9, 18⟩⟩]),
          ⟨0, 0⟩, .endTurn⟩) ∧
    (ollamaStream 200 ""
        [StreamRec.frag ⟨"m", "t", ⟨"assistant", "y"⟩, true, "", ⟨4, 6, 10⟩⟩]
        .eof).getLast? =
      some (ProviderEvent.complete ⟨"y", ⟨4, 6⟩, .endTurn⟩) :=
  ⟨(stream_synthetic_complete_zero_usage "").1
      [StreamRec.frag ⟨"m", "t", ⟨"assistant", "x"⟩, false, "", ⟨9, 9, 18⟩⟩]
      (by decide),
   (stream_synthetic_complete_zero_usage "").2
      ⟨"m", "t", ⟨"assistant", "y"⟩, true, "", ⟨4, 6, 10⟩⟩ .eof rfl rfl⟩

lemma convertMsg_role_user_or_assistant (msg : Message) (t : OllamaMessage)
    (h : t ∈ convertMsg msg) : t.role = "user" ∨ t.role = "assistant" := by
  rcases hrole : msg.role with _ | _ | _ | _ | s
  · rw [convertMsg, hrole] at h
    simp at h
  · rw [convertMsg, hrole] at h
    simp only [List.mem_singleton] at h
    subst h
    exact Or.inl rfl
  · rw [convertMsg, hrole] at h
    rcases List.mem_append.mp h with h | h
    · split at h
      · simp only [List.mem_singleton] at h
        subst h
        exact Or.inr rfl
      · simp at h
    · split at h
      · simp only [List.mem_singleton] at h
        subst h
        exact Or.inr rfl
      · simp at h
  · rw [convertMsg, hrole] at h
    obtain ⟨result, _, ht⟩ := List.mem_map.mp h
    subst ht
    exact Or.inl rfl
  · rw [convertMsg, hrole] at h
    simp at h

/-- C10: history turns whose role is system — or any role outside
user/assistant/tool — produce no Wire Turn, and the only system-role Wire
Turn that can appear in the output is the one built from the configured
system-message string. -/
theorem convertMessages_no_history_system_turns :
    (∀ msg : Message, (msg.role = .system ∨ ∃ s, msg.role = .other s) →
      convertMsg msg = []) ∧
    (∀ (sys : String) (msgs : List Message) (t : OllamaMessage),
      t ∈ convertMessages sys msgs → t.role = "system" →
      sys ≠ "" ∧ t = ⟨"system", sys⟩) := by
  constructor
  · intro msg hrole
    rcases hrole with hrole | ⟨s, hrole⟩
    · rw [convertMsg, hrole]
    · rw [convertMsg, hrole]
  · intro sys msgs t hmem hrole
    unfold convertMessages at hmem
    rcases List.mem_append.mp hmem with hmem | hmem
    · by_cases hs : sys = ""
      · simp [hs] at hmem
      · simp only [hs, ne_eq, not_false_eq_true, ite_true,
          List.mem_singleton] at hmem
        exact ⟨hs, hmem⟩
    · exfalso
      obtain ⟨msg, _, ht⟩ := List.mem_flatMap.mp hmem
      rcases convertMsg_role_user_or_assistant msg t ht with hr | hr <;>
        rw [hr] at hrole <;> exact absurd hrole (by decide)

theorem convertMessages_no_history_system_turns_witness :
    convertMsg ⟨MessageRole.system, "ignored", [], []⟩ = [] ∧
      (("sys" : String) ≠ "" ∧
        (⟨"system", "sys"⟩ : OllamaMessage) = ⟨"system", "sys"⟩) :=
  ⟨convertMessages_no_history_system_turns.1
      ⟨MessageRole.system, "ignored", [], []⟩ (Or.inl rfl),
   convertMessages_no_history_system_turns.2 "sys" [] ⟨"system", "sys"⟩
      (by decide) rfl⟩

end Ollama
